import Mathlib

/-!
Verification of the gshhg core engine (src/core) against its design
specification.  Pure functions of the C++ sources are embedded shallowly:
floating-point arithmetic on angles is modelled over `ℚ` (the executable
model), the trigonometric coordinate transforms of `geometry.cpp` over `ℝ`,
fallible code over `Except`.  External collaborators (the boost.geometry
ring-containment test and polygon clipping, the shapefile reader) are
modelled as function parameters or input data, following the contracts the
design fixes for them.
-/

namespace Gshhg

/-- Error taxonomy of the design: C++ exceptions thrown by the core map to
these values (`std::system_error`+ENOENT, `std::runtime_error` in load_shp,
`std::invalid_argument` in parse_resolution_string, `std::out_of_range`
from `result.at(0)` in `GSHHG::nearest`). -/
inductive Err where
  | notFound
  | dataCorruption
  | invalidArgument
  | emptyIndex
deriving DecidableEq, Repr

/-! Model of `math.hpp`. -/

/-- Nearest integer to a rational, halfway cases rounded to even: the
rounding used by the IEEE-754 remainder operation `std::remainder`. -/
def roundHalfEven (q : ℚ) : ℤ :=
  if q - ⌊q⌋ < 1/2 then ⌊q⌋
  else if 1/2 < q - ⌊q⌋ then ⌊q⌋ + 1
  else if ⌊q⌋ % 2 = 0 then ⌊q⌋ else ⌊q⌋ + 1

/-- Model of `std::remainder(x, y)`: `x - n * y` with `n` the integer
nearest to `x / y`, halfway cases to even. -/
def remainderIEEE (x y : ℚ) : ℚ := x - roundHalfEven (x / y) * y

/-- Model of `gshhg::remainder` for floating operands (math.hpp, lines
49-57): `std::remainder(x, y)`, then add `y` if the result is negative. -/
def remainder (x y : ℚ) : ℚ :=
  if remainderIEEE x y < 0 then remainderIEEE x y + y else remainderIEEE x y

/-- Model of `gshhg::normalize_angle` (math.hpp, lines 65-69). -/
def normalize_angle (x min circle : ℚ) : ℚ := remainder (x - min) circle + min

/-! Model of the polygon store and point queries of `gshhg.hpp`.  The exact
ring-containment test is boost.geometry's `intersects(point, polygon)`, an
external geometry collaborator of the design; it enters the model as a
function parameter `pip`. -/

/-- Two-dimensional point (lon, lat) in degrees, the `Point` of
geometry.hpp. -/
abbrev Pt := ℚ × ℚ

/-- Ordered outer-ring vertices of a polygon (`Polygon` of geometry.hpp;
the engine only ever fills outer rings). -/
abbrev Ring := List Pt

/-- Axis-aligned box of geometry.hpp (min corner, max corner). -/
structure Box where
  minCorner : Pt
  maxCorner : Pt
deriving DecidableEq, Repr

/-- Containment of a point in a box: `boost::geometry::intersects` of a
point and a box, boundary inclusive. -/
def inBox (b : Box) (p : Pt) : Bool :=
  decide (b.minCorner.1 ≤ p.1 ∧ p.1 ≤ b.maxCorner.1 ∧
    b.minCorner.2 ≤ p.2 ∧ p.2 ≤ b.maxCorner.2)

/-- Record stored per loaded polygon, `GSHHG::PolygonIndex` of gshhg.hpp. -/
structure PolygonIndex where
  polygon : Ring
  envelope : Box
  level : Nat
deriving DecidableEq, Repr

/-- Loop condition of `GSHHG::mask` for one record: envelope fast path,
then exact ring containment (`intersects(point, envelope) &&
intersects(point, polygon)`, gshhg.hpp lines 45-46). -/
def containsPt (pip : Ring → Pt → Bool) (item : PolygonIndex) (point : Pt) :
    Bool :=
  inBox item.envelope point && pip item.polygon point

/-- Query point built by `GSHHG::mask` (gshhg.hpp line 42). -/
def queryPoint (lon lat : ℚ) : Pt := (normalize_angle lon (-180) 360, lat)

/-- Model of `GSHHG::mask` (gshhg.hpp lines 40-51): scan the stored records
in reverse load order and return the level of the first hit, 0 if none. -/
def mask (pip : Ring → Pt → Bool) (polygons : List PolygonIndex)
    (lon lat : ℚ) : Nat :=
  match polygons.reverse.find?
      (fun item => containsPt pip item (queryPoint lon lat)) with
  | some item => item.level
  | none => 0

/-- Variant of `mask` stated by claim C10: identical reverse scan but with
the envelope fast path omitted.  Defined from the claim's words, to be
compared with the source-derived `mask`. -/
def maskNoEnvelope (pip : Ring → Pt → Bool) (polygons : List PolygonIndex)
    (lon lat : ℚ) : Nat :=
  match polygons.reverse.find?
      (fun item => pip item.polygon (queryPoint lon lat)) with
  | some item => item.level
  | none => 0

/-! Model of the spatial index and `GSHHG::nearest`.  The boost.geometry
rtree is the external ShorelineIndex collaborator; its nearest-1 query
contract (single closest stored point by Euclidean ECEF distance, nothing
on an empty tree) is the design's §4.3.  Coordinates are modelled over ℚ
to keep the index model executable. -/

/-- Stored ECEF point of the index model. -/
abbrev CartesianQ := ℚ × ℚ × ℚ

/-- Squared Euclidean distance, the comparable distance the rtree
nearest-neighbour search minimizes. -/
def sqDist (a b : CartesianQ) : ℚ :=
  (a.1 - b.1) ^ 2 + (a.2.1 - b.2.1) ^ 2 + (a.2.2 - b.2.2) ^ 2

/-- Nearest-1 rtree query (`rtree_->qbegin(nearest(point, 1))` …): empty
result on an empty tree, otherwise the single stored point of minimal
Euclidean distance. -/
def rtreeNearestOne (pts : List CartesianQ) (q : CartesianQ) :
    List CartesianQ :=
  match pts with
  | [] => []
  | p :: rest =>
      [rest.foldl (fun best c => if sqDist c q < sqDist best q then c else best) p]

/-- Model of the private `GSHHG::nearest(const Cartesian&)` (gshhg.hpp
lines 106-112): collect the nearest-1 query results into a vector and take
`result.at(0)`; `at(0)` on an empty vector throws (EmptyIndex). -/
def nearestIndexed (pts : List CartesianQ) (q : CartesianQ) :
    Except Err CartesianQ :=
  match rtreeNearestOne pts q with
  | [] => .error .emptyIndex
  | r :: _ => .ok r

/-! Model of the loader, `gshhg.cpp`.  The shapefile reader is an external
collaborator: an opened file is input data, the list of its
`SHPReadObject` results in entity order (`none` models a null
`SHPObject*`); the filesystem is a map from paths to such lists (`none`
models a missing file, `SHPOpen` returning null).  The polygon/bbox
intersection is the external clipping collaborator `clip`; the envelope
collaborator is the bounding box of the ring vertices. -/

/-- Shapelib polygon shape-type tag `SHPT_POLYGON`. -/
def SHPT_POLYGON : Nat := 5

/-- Shape delivered by the shapefile reader: type tag, part count, start
offset of the first part, ordered vertex list. -/
structure Shape where
  nSHPType : Nat
  nParts : Nat
  partStart0 : Nat
  vertices : List Pt
deriving DecidableEq, Repr

/-- Vertex loop of `load_shp` (gshhg.cpp lines 91-100): the vertex at index
`jx` is skipped exactly when the shape is patched and `jx < 2` or `jx` is
the last index. -/
def ringVertices (patched : Bool) (verts : List Pt) : List Pt :=
  verts.enum.filterMap fun jv =>
    if patched && (decide (jv.1 < 2) || decide (jv.1 = verts.length - 1))
    then none else some jv.2

/-- Ring assembly including the closing of the patched ring (gshhg.cpp
lines 102-106): a patched shape gets the two closing vertices appended. -/
def assembleRing (patched : Bool) (verts : List Pt) : List Pt :=
  if patched then ringVertices patched verts ++ [(180, -90), (0, -90)]
  else ringVertices patched verts

/-- Envelope collaborator (`boost::geometry::envelope`): bounding box of
the stored ring's vertices. -/
def envelopeOf (ring : Ring) : Box :=
  match ring with
  | [] => ⟨(0, 0), (0, 0)⟩
  | p :: rest =>
      rest.foldl (fun b v =>
        ⟨(min b.minCorner.1 v.1, min b.minCorner.2 v.2),
          (max b.maxCorner.1 v.1, max b.maxCorner.2 v.2)⟩) ⟨p, p⟩

/-- Records stored for one shape (gshhg.cpp lines 83-131): polygon-type
nonempty shapes are assembled into a ring; with a bounding-box selection
each clipped sub-polygon becomes a record, otherwise the ring itself
does. -/
def processShape (clip : Ring → Box → List Ring) (bbox : Option Box)
    (level : Nat) (patch : Bool) (ix : Nat) (s : Shape) :
    List PolygonIndex :=
  if s.nSHPType = SHPT_POLYGON ∧ s.vertices.length ≠ 0 then
    match bbox with
    | some box =>
        (clip (assembleRing (patch && decide (ix = 0)) s.vertices) box).map
          fun item => ⟨item, envelopeOf item, level⟩
    | none =>
        [⟨assembleRing (patch && decide (ix = 0)) s.vertices,
          envelopeOf (assembleRing (patch && decide (ix = 0)) s.vertices),
          level⟩]
  else []

/-- Shape loop of `load_shp` (gshhg.cpp lines 74-133): abort with the
DataCorruption error when the reader returns null or when a shape has
parts and its first part does not start at offset 0. -/
def loadShapes (clip : Ring → Box → List Ring) (bbox : Option Box)
    (level : Nat) (patch : Bool) :
    Nat → List (Option Shape) → List PolygonIndex →
      Except Err (List PolygonIndex)
  | _, [], acc => .ok acc
  | _, none :: _, _ => .error .dataCorruption
  | ix, some s :: rest, acc =>
      if 0 < s.nParts ∧ s.partStart0 ≠ 0 then .error .dataCorruption
      else loadShapes clip bbox level patch (ix + 1) rest
        (acc ++ processShape clip bbox level patch ix s)

/-- Model of `GSHHG::load_shp` applied to one opened file's shapes. -/
def load_shp (clip : Ring → Box → List Ring) (bbox : Option Box)
    (level : Nat) (patch : Bool) (shapes : List (Option Shape)) :
    Except Err (List PolygonIndex) :=
  loadShapes clip bbox level patch 0 shapes []

/-- The GSHHG geography data set resolution (gshhg.hpp lines 16-22). -/
inductive Resolution where
  | kCrude
  | kLow
  | kIntermediate
  | kHigh
  | kFull
deriving DecidableEq, Repr

/-- Resolution code character used in dataset paths. -/
def Resolution.code : Resolution → String
  | .kCrude => "c"
  | .kLow => "l"
  | .kIntermediate => "i"
  | .kHigh => "h"
  | .kFull => "f"

/-- Model of `GSHHG::parse_resolution_string` (gshhg.hpp lines 82-100). -/
def parse_resolution_string (resolution : String) : Except Err Resolution :=
  if resolution = "crude" then .ok .kCrude
  else if resolution = "low" then .ok .kLow
  else if resolution = "intermediate" then .ok .kIntermediate
  else if resolution = "high" then .ok .kHigh
  else if resolution = "full" then .ok .kFull
  else .error .invalidArgument

/-- Dataset path built for a resolution and level (gshhg.cpp lines
36-40). -/
def shpPath (dirname : String) (res : Resolution) (level : Nat) : String :=
  dirname ++ "/" ++ res.code ++ "/GSHHS_" ++ res.code ++ "_L" ++
    toString level ++ ".shp"

/-- Level filter of the constructor (gshhg.cpp lines 23-29): when an
explicit level list was given, a level not in it is skipped. -/
def levelSkipped (levels : Option (List Int)) (level : Nat) : Bool :=
  match levels with
  | some ls => decide ((level : Int) ∉ ls)
  | none => false

/-- Patch argument of the `load_shp` call (gshhg.cpp lines 43-45): level 5
at full resolution must be patched. -/
def patchFlag (res : Resolution) (level : Nat) : Bool :=
  decide (res = Resolution.kFull) && decide (level = 5)

/-- Level loop of the constructor (gshhg.cpp lines 21-46). -/
def buildLevels (clip : Ring → Box → List Ring)
    (files : String → Option (List (Option Shape))) (dirname : String)
    (res : Resolution) (levels : Option (List Int)) (bbox : Option Box) :
    List Nat → List PolygonIndex → Except Err (List PolygonIndex)
  | [], acc => .ok acc
  | level :: rest, acc =>
      if levelSkipped levels level then
        buildLevels clip files dirname res levels bbox rest acc
      else if res = Resolution.kCrude ∧ level = 4 then
        buildLevels clip files dirname res levels bbox rest acc
      else
        match files (shpPath dirname res level) with
        | none => .error .notFound
        | some shapes =>
            match load_shp clip bbox level (patchFlag res level) shapes with
            | .error e => .error e
            | .ok polys =>
                buildLevels clip files dirname res levels bbox rest
                  (acc ++ polys)

/-- Model of the GSHHG constructor (gshhg.cpp lines 11-48): parse the
resolution name (default "intermediate"), then load levels 1..6; any load
error aborts construction, so no polygon store is produced. -/
def build (clip : Ring → Box → List Ring)
    (files : String → Option (List (Option Shape))) (dirname : String)
    (resolution : Option String) (levels : Option (List Int))
    (bbox : Option Box) : Except Err (List PolygonIndex) :=
  match parse_resolution_string (resolution.getD "intermediate") with
  | .error e => .error e
  | .ok res =>
      buildLevels clip files dirname res levels bbox [1, 2, 3, 4, 5, 6] []

/-! Model of the batched query wrappers of `main.cpp`.  The worker-range
splitting lives in `thread.hpp`, which is not part of the core sources;
its contract is therefore taken from the design (§4.5): `dispatch`
partitions [0, N) into contiguous ranges, each processed sequentially in
increasing index order by one worker.  Each wrapper in `main.cpp` runs its
range inside a try/catch that stores the caught exception in one shared
`except` slot (so each later capture overwrites the earlier one) and, after
all workers join, rethrows the captured exception if any. -/

/-- Modelled from the spec: `thread.hpp`'s worker body as instantiated by
`main.cpp` — process the indices of one range in increasing order, stopping
at the first per-point error, which the catch block captures. -/
def rangeFirstError (f : Nat → Option Err) (start stop : Nat) : Option Err :=
  (List.range' start (stop - start)).findSome? f

/-- Modelled from the spec: the shared `except` slot after all workers
complete — every failing range overwrites it, so it ends as the error of
the last failing range in observation order. -/
def dispatchCaptured (f : Nat → Option Err) (ranges : List (Nat × Nat)) :
    Option Err :=
  ranges.foldl (fun acc r =>
    match rangeFirstError f r.1 r.2 with
    | some e => some e
    | none => acc) none

/-- Error component of one per-point query. -/
def pointError {α : Type} (g : Nat → Except Err α) (k : Nat) : Option Err :=
  match g k with
  | .ok _ => none
  | .error e => some e

/-- Modelled from the spec: a batched query of `main.cpp` (nearest, mask or
distance_to_nearest over coordinate arrays) — rethrow the captured error if
one exists, otherwise deliver the per-range outputs. -/
def batchQuery {α : Type} (g : Nat → Except Err α)
    (ranges : List (Nat × Nat)) : Except Err (List α) :=
  match dispatchCaptured (pointError g) ranges with
  | some e => .error e
  | none =>
      .ok (ranges.map (fun r =>
        (List.range' r.1 (r.2 - r.1)).filterMap fun k =>
          (g k).toOption)).flatten

/-! Model of the coordinate transforms of `geometry.cpp` and the angle
conversions of `math.hpp` at type double, over ℝ (exact real arithmetic;
the design states its §8 round-trip property with tolerances that absorb
floating-point rounding).  `std::atan2(y, x)` is the argument of the
complex number x + y·i, with values in (-π, π]. -/

noncomputable section

/-- Equatorial radius [m] (geometry.cpp line 9). -/
def A : ℝ := 6378137

/-- Polar radius [m] (geometry.cpp line 12). -/
def B : ℝ := 6356752.3142

/-- Eccentricity (geometry.cpp line 15). -/
def E : ℝ := Real.sqrt ((A * A - B * B) / (A * A))

/-- Second eccentricity (geometry.cpp line 18). -/
def SE : ℝ := Real.sqrt ((A * A - B * B) / (B * B))

/-- Geodetic point in radians (lon, lat, alt), the `GeodeticRadian` of
geometry.hpp; a coordinate the code does not set is 0. -/
structure GeodeticRadian where
  lon : ℝ
  lat : ℝ
  alt : ℝ

/-- Geodetic point in degrees (lon, lat, alt), the `GeodeticDegree` of
geometry.hpp. -/
structure GeodeticDegree where
  lon : ℝ
  lat : ℝ
  alt : ℝ

/-- ECEF point (x, y, z) in meters, the `Cartesian` of geometry.hpp. -/
structure Cartesian where
  x : ℝ
  y : ℝ
  z : ℝ

/-- Model of `std::atan2(y, x)`. -/
def atan2 (y x : ℝ) : ℝ := Complex.arg (x + y * Complex.I)

/-- Model of `std::copysign` as used with magnitude π/2: the ℝ model has
no negative zero, so a zero sign argument counts as positive. -/
def copysign (mag s : ℝ) : ℝ := if s < 0 then -|mag| else |mag|

/-- Model of `gshhg::radians` (math.hpp lines 25-28); despite its doc
comment the code multiplies by π/180, converting degrees to radians, and
its callers use it that way. -/
def radians (x : ℝ) : ℝ := x * Real.pi / 180

/-- Model of `gshhg::degrees` (math.hpp lines 31-34): multiply by 180/π. -/
def degrees (x : ℝ) : ℝ := x * 180 / Real.pi

/-- Model of `gshhg::geodetic_2_radian` (geometry.hpp lines 31-34). -/
def geodetic_2_radian (point : GeodeticDegree) : GeodeticRadian :=
  ⟨radians point.lon, radians point.lat, point.alt⟩

/-- Model of `gshhg::geodetic_2_degree` (geometry.hpp lines 36-39). -/
def geodetic_2_degree (point : GeodeticRadian) : GeodeticDegree :=
  ⟨degrees point.lon, degrees point.lat, point.alt⟩

/-- The local `chi` of geodetic_2_cartesian (geometry.cpp line 25). -/
def chiOf (lat : ℝ) : ℝ :=
  Real.sqrt (1 - E * E * Real.sin lat * Real.sin lat)

/-- Model of `gshhg::geodetic_2_cartesian` (geometry.cpp lines 20-30);
`a_chi` is A / chi and the altitude component of the input is not read. -/
def geodetic_2_cartesian (point : GeodeticRadian) : Cartesian :=
  ⟨A / chiOf point.lat * Real.cos point.lat * Real.cos point.lon,
    A / chiOf point.lat * Real.cos point.lat * Real.sin point.lon,
    A / chiOf point.lat * (1 - E * E) * Real.sin point.lat⟩

/-- The local `theta` of cartesian_2_geodetic (geometry.cpp line 37). -/
def thetaOf (point : Cartesian) : ℝ :=
  atan2 (point.z * A)
    (Real.sqrt (point.x * point.x + point.y * point.y) * B)

open scoped Classical in
/-- Model of `gshhg::cartesian_2_geodetic` (geometry.cpp lines 32-49),
Bowring's closed form; the returned point sets only (lon, lat), its
altitude coordinate is 0. -/
def cartesian_2_geodetic (point : Cartesian) : GeodeticRadian :=
  if point.x = 0 ∧ point.y = 0 then
    ⟨0, copysign (Real.pi / 2) point.z, 0⟩
  else
    ⟨atan2 point.y point.x,
      atan2 (point.z + SE * SE * B * Real.sin (thetaOf point) ^ 3)
        (Real.sqrt (point.x * point.x + point.y * point.y) -
          E * E * A * Real.cos (thetaOf point) ^ 3),
      0⟩

/-- Formula claimed by the design (§4.1) for geodeticToCartesian: with
prime-vertical radius of curvature χ = a/√(1−e²sin²lat), x=χ·cos(lat)·cos(lon),
y=χ·cos(lat)·sin(lon), z=(χ(1−e²)+alt)·sin(lat), alt the altitude component
of the input (0 if unspecified).  Stated from the claim's words, to be
compared with the source-derived `geodetic_2_cartesian`. -/
def geodeticToCartesianSpec (point : GeodeticRadian) : Cartesian :=
  ⟨A / Real.sqrt (1 - E ^ 2 * Real.sin point.lat ^ 2) *
      Real.cos point.lat * Real.cos point.lon,
    A / Real.sqrt (1 - E ^ 2 * Real.sin point.lat ^ 2) *
      Real.cos point.lat * Real.sin point.lon,
    (A / Real.sqrt (1 - E ^ 2 * Real.sin point.lat ^ 2) * (1 - E ^ 2) +
      point.alt) * Real.sin point.lat⟩

/-- Round trip of the design's §8 property, including the degree↔radian
conversions the query pipeline applies around the two transforms. -/
def roundtrip (p : GeodeticDegree) : GeodeticDegree :=
  geodetic_2_degree
    (cartesian_2_geodetic (geodetic_2_cartesian (geodetic_2_radian p)))

/-- Auxiliary quantity of the round-trip analysis: for a point of reduced
latitude data (s, c) = (sin lat, cos lat), `Dval s c` is A·chi, the
denominator shared by the Bowring identities. -/
def Dval (s c : ℝ) : ℝ := Real.sqrt (A * A * (c * c) + B * B * (s * s))

end

lemma roundHalfEven_dist (q : ℚ) : |q - roundHalfEven q| ≤ 1/2 := by
  have h0 : (⌊q⌋ : ℚ) ≤ q := Int.floor_le q
  have h1 : q < ⌊q⌋ + 1 := Int.lt_floor_add_one q
  unfold roundHalfEven
  split_ifs <;> (rw [abs_le]; push_cast; constructor <;> linarith)

lemma remainderIEEE_abs_le {y : ℚ} (hy : 0 < y) (x : ℚ) :
    |remainderIEEE x y| ≤ y / 2 := by
  have hq := roundHalfEven_dist (x / y)
  have hy' : y ≠ 0 := ne_of_gt hy
  have hrw : remainderIEEE x y = (x / y - roundHalfEven (x / y)) * y := by
    unfold remainderIEEE; field_simp; ring
  rw [hrw, abs_mul, abs_of_pos hy]
  calc |x / y - roundHalfEven (x / y)| * y ≤ (1/2) * y := by
        exact mul_le_mul_of_nonneg_right hq (le_of_lt hy)
    _ = y / 2 := by ring

lemma remainder_mem {y : ℚ} (hy : 0 < y) (x : ℚ) :
    0 ≤ remainder x y ∧ remainder x y < y := by
  have habs := remainderIEEE_abs_le hy x
  rw [abs_le] at habs
  unfold remainder
  split_ifs with h
  · constructor <;> linarith
  · constructor <;> linarith

lemma normalize_angle_mem {circle : ℚ} (hc : 0 < circle) (x min : ℚ) :
    min ≤ normalize_angle x min circle ∧
      normalize_angle x min circle < min + circle := by
  have h := remainder_mem hc (x - min)
  unfold normalize_angle
  constructor <;> linarith [h.1, h.2]

/-- C9: `normalize_angle(x, min, circle)` always returns a value in the
half-open interval `[min, min + circle)`, for every input `x` (stated for a
positive circle length, which a nonempty half-open target interval
presupposes; the engine only calls it with `circle = 360`). -/
theorem normalize_angle_range_c9 (x min circle : ℚ) (hc : 0 < circle) :
    min ≤ normalize_angle x min circle ∧
      normalize_angle x min circle < min + circle :=
  normalize_angle_mem hc x min

/-- Witness for C9 at `x = 500`, `min = -180`, `circle = 360`. -/
theorem normalize_angle_range_c9_witness :
    (0 : ℚ) < 360 ∧
      ((-180 : ℚ) ≤ normalize_angle 500 (-180) 360 ∧
        normalize_angle 500 (-180) 360 < -180 + 360) :=
  ⟨by norm_num, normalize_angle_range_c9 500 (-180) 360 (by norm_num)⟩

lemma find?_append_of_none {α : Type} (p : α → Bool) (l₁ l₂ : List α)
    (h : ∀ a ∈ l₁, p a = false) :
    (l₁ ++ l₂).find? p = l₂.find? p := by
  induction l₁ with
  | nil => rfl
  | cons a l ih =>
      rw [List.cons_append, List.find?_cons_of_neg, ih]
      · exact fun b hb => h b (List.mem_cons_of_mem a hb)
      · simp [h a (List.mem_cons_self a l)]

lemma find?_congr {α : Type} (p q : α → Bool) (l : List α)
    (h : ∀ a ∈ l, p a = q a) : l.find? p = l.find? q := by
  induction l with
  | nil => rfl
  | cons a l ih =>
      rcases hq : q a with _ | _
      · rw [List.find?_cons_of_neg, List.find?_cons_of_neg]
        · exact ih fun b hb => h b (List.mem_cons_of_mem a hb)
        · simp [hq]
        · simp [h a (List.mem_cons_self a l), hq]
      · rw [List.find?_cons_of_pos, List.find?_cons_of_pos]
        · simp [hq]
        · simp [h a (List.mem_cons_self a l), hq]

lemma mask_eq_zero (pip : Ring → Pt → Bool) (polygons : List PolygonIndex)
    (lon lat : ℚ)
    (h : ∀ item ∈ polygons, containsPt pip item (queryPoint lon lat) = false) :
    mask pip polygons lon lat = 0 := by
  unfold mask
  rw [List.find?_eq_none.mpr fun x hx => by
    simp [h x (List.mem_reverse.mp hx)]]

lemma mask_eq_level (pip : Ring → Pt → Bool) (polygons : List PolygonIndex)
    (lon lat : ℚ) (front back : List PolygonIndex) (item : PolygonIndex)
    (hsplit : polygons = front ++ item :: back)
    (hhit : containsPt pip item (queryPoint lon lat) = true)
    (hback : ∀ j ∈ back, containsPt pip j (queryPoint lon lat) = false) :
    mask pip polygons lon lat = item.level := by
  subst hsplit
  unfold mask
  have hrev : (front ++ item :: back).reverse =
      back.reverse ++ item :: front.reverse := by
    simp
  rw [hrev, find?_append_of_none _ _ _
      (fun a ha => hback a (List.mem_reverse.mp ha)),
    List.find?_cons_of_pos (p := fun a => containsPt pip a (queryPoint lon lat))
      _ hhit]

/-- C1: `mask(lon, lat)` first normalizes the longitude into [-180, 180),
then scans the stored records in reverse load order, testing envelope
containment before exact ring containment, and returns the level of the
first containing record, 0 if none; in particular it returns 0 at
(-150, 0) whenever no stored record contains that mid-Pacific point (as in
the GSHHG dataset). -/
theorem mask_scan_c1 (pip : Ring → Pt → Bool)
    (polygons : List PolygonIndex) (lon lat : ℚ) :
    (-180 ≤ (queryPoint lon lat).1 ∧ (queryPoint lon lat).1 < 180) ∧
    ((∀ item ∈ polygons, containsPt pip item (queryPoint lon lat) = false) →
      mask pip polygons lon lat = 0) ∧
    (∀ front back item, polygons = front ++ item :: back →
      containsPt pip item (queryPoint lon lat) = true →
      (∀ j ∈ back, containsPt pip j (queryPoint lon lat) = false) →
      mask pip polygons lon lat = item.level) ∧
    ((∀ item ∈ polygons, containsPt pip item ((-150 : ℚ), (0 : ℚ)) = false) →
      mask pip polygons (-150) 0 = 0) := by
  refine ⟨?_, mask_eq_zero pip polygons lon lat, ?_, ?_⟩
  · have h := normalize_angle_mem (by norm_num : (0 : ℚ) < 360) lon (-180)
    have h1 := h.1
    have h2 := h.2
    simp only [queryPoint]
    exact ⟨h1, by linarith⟩
  · exact fun front back item hs hh hb =>
      mask_eq_level pip polygons lon lat front back item hs hh hb
  · intro h
    refine mask_eq_zero pip polygons (-150) 0 fun item hm => ?_
    have hq : queryPoint (-150) 0 = ((-150 : ℚ), (0 : ℚ)) := by
      norm_num [queryPoint, normalize_angle, remainder, remainderIEEE,
        roundHalfEven]
    rw [hq]
    exact h item hm

/-- Witness for C1 on the empty store with a trivial containment
collaborator. -/
theorem mask_scan_c1_witness :
    mask (fun _ _ => false) [] (-150) 0 = 0 :=
  (mask_scan_c1 (fun _ _ => false) [] (-150) 0).2.2.2 (by simp)

/-- C10: when every stored record's envelope contains (every point of) its
polygon — the invariant the loader establishes by computing the envelope as
the bounding box of the stored polygon — the envelope pre-check is a pure
fast path: `mask` agrees with the naive variant that tests exact ring
containment only, in the same reverse order, on every input. -/
theorem mask_envelope_fast_path_c10 (pip : Ring → Pt → Bool)
    (polygons : List PolygonIndex)
    (hcover : ∀ item ∈ polygons, ∀ p : Pt,
      pip item.polygon p = true → inBox item.envelope p = true)
    (lon lat : ℚ) :
    mask pip polygons lon lat = maskNoEnvelope pip polygons lon lat := by
  unfold mask maskNoEnvelope
  rw [find?_congr
      (fun item => containsPt pip item (queryPoint lon lat))
      (fun item => pip item.polygon (queryPoint lon lat))
      polygons.reverse
      (fun item hm => ?_)]
  rcases hb : pip item.polygon (queryPoint lon lat) with _ | _
  · simp [containsPt, hb]
  · simp [containsPt, hb,
      hcover item (List.mem_reverse.mp hm) (queryPoint lon lat) hb]

/-- Witness for C10 on a one-record store whose collaborator accepts
nothing. -/
theorem mask_envelope_fast_path_c10_witness :
    mask (fun _ _ => false) [⟨[(0, 0)], ⟨(0, 0), (0, 0)⟩, 1⟩] 7 3 =
      maskNoEnvelope (fun _ _ => false) [⟨[(0, 0)], ⟨(0, 0), (0, 0)⟩, 1⟩] 7 3 :=
  mask_envelope_fast_path_c10 (fun _ _ => false) _ (by simp) 7 3

lemma foldl_min_spec (q : CartesianQ) (rest : List CartesianQ)
    (p : CartesianQ) :
    (rest.foldl (fun best c => if sqDist c q < sqDist best q then c else best) p)
        ∈ p :: rest ∧
      ∀ c ∈ p :: rest,
        sqDist (rest.foldl
          (fun best c => if sqDist c q < sqDist best q then c else best) p) q ≤
          sqDist c q := by
  induction rest generalizing p with
  | nil => exact ⟨List.mem_singleton.mpr rfl, by simp⟩
  | cons a rest ih =>
      rw [List.foldl_cons]
      by_cases hc : sqDist a q < sqDist p q
      · rw [if_pos hc]
        obtain ⟨hmem, hle⟩ := ih a
        refine ⟨?_, ?_⟩
        · rcases List.mem_cons.mp hmem with h | h
          · rw [h]; simp
          · simp [h]
        · intro c hcm
          rcases List.mem_cons.mp hcm with h | h
          · rw [h]
            exact le_trans (hle a (List.mem_cons_self a rest)) (le_of_lt hc)
          · rcases List.mem_cons.mp h with h' | h'
            · rw [h']
              exact hle a (List.mem_cons_self a rest)
            · exact hle c (List.mem_cons_of_mem a h')
      · rw [if_neg hc]
        obtain ⟨hmem, hle⟩ := ih p
        refine ⟨?_, ?_⟩
        · rcases List.mem_cons.mp hmem with h | h
          · rw [h]; simp
          · simp [h]
        · intro c hcm
          rcases List.mem_cons.mp hcm with h | h
          · rw [h]
            exact hle p (List.mem_cons_self p rest)
          · rcases List.mem_cons.mp h with h' | h'
            · rw [h']
              exact le_trans (hle p (List.mem_cons_self p rest))
                (le_of_not_lt hc)
            · exact hle c (List.mem_cons_of_mem p h')

/-- C2: the nearest-point query fails with EmptyIndex exactly when zero
boundary points were loaded into the index; otherwise it succeeds and
returns a stored point of minimal Euclidean ECEF distance to the query. -/
theorem nearest_empty_index_c2 (pts : List CartesianQ) (q : CartesianQ) :
    (nearestIndexed pts q = .error Err.emptyIndex ↔ pts = []) ∧
    (∀ r, nearestIndexed pts q = .ok r →
      r ∈ pts ∧ ∀ p ∈ pts, sqDist r q ≤ sqDist p q) ∧
    (pts ≠ [] → ∃ r, nearestIndexed pts q = .ok r) := by
  match pts with
  | [] => exact ⟨by simp [nearestIndexed, rtreeNearestOne], by
      simp [nearestIndexed, rtreeNearestOne], by simp⟩
  | p :: rest =>
      refine ⟨by simp [nearestIndexed, rtreeNearestOne], ?_, ?_⟩
      · intro r hr
        have h := foldl_min_spec q rest p
        have hr' : r = rest.foldl
            (fun best c => if sqDist c q < sqDist best q then c else best) p := by
          simpa [nearestIndexed, rtreeNearestOne] using hr.symm
        exact hr' ▸ h
      · exact fun _ =>
          ⟨rest.foldl
            (fun best c => if sqDist c q < sqDist best q then c else best) p,
            rfl⟩

/-- Witness for C2 on a concrete three-point index. -/
theorem nearest_empty_index_c2_witness :
    ((1, 0, 0) : CartesianQ) ∈
        ([(3, 0, 0), (1, 0, 0), (2, 0, 0)] : List CartesianQ) ∧
      ∀ p ∈ ([(3, 0, 0), (1, 0, 0), (2, 0, 0)] : List CartesianQ),
        sqDist (1, 0, 0) (0, 0, 0) ≤ sqDist p (0, 0, 0) :=
  (nearest_empty_index_c2 [(3, 0, 0), (1, 0, 0), (2, 0, 0)] (0, 0, 0)).2.1
    (1, 0, 0) (by norm_num [nearestIndexed, rtreeNearestOne, sqDist])

lemma loadShapes_corrupt (clip : Ring → Box → List Ring) (bbox : Option Box)
    (level : Nat) (patch : Bool) :
    ∀ (shapes : List (Option Shape)) (ix : Nat) (acc : List PolygonIndex),
      (∃ s : Shape, some s ∈ shapes ∧ 0 < s.nParts ∧ s.partStart0 ≠ 0) →
      loadShapes clip bbox level patch ix shapes acc =
        .error .dataCorruption := by
  intro shapes
  induction shapes with
  | nil => exact fun ix acc h => absurd h.choose_spec.1 (by simp)
  | cons hd rest ih =>
      intro ix acc h
      match hd with
      | none => rfl
      | some s' =>
          obtain ⟨s, hmem, h1, h2⟩ := h
          by_cases hbad : 0 < s'.nParts ∧ s'.partStart0 ≠ 0
          · simp [loadShapes, hbad]
          · rw [loadShapes, if_neg hbad]
            refine ih _ _ ⟨s, ?_, h1, h2⟩
            rcases List.mem_cons.mp hmem with h' | h'
            · exact absurd (Option.some_injective _ h' ▸ ⟨h1, h2⟩) hbad
            · exact h'

/-- C5: a shape with more than one part whose first part does not start at
offset 0 makes the load of its file fail with DataCorruption, and a load
failure makes the whole construction return that error — no partial
polygon store is produced (shown for a corrupt shape in the level-1 file,
which every non-filtered build reads first). -/
theorem load_corrupt_aborts_c5 :
    (∀ (clip : Ring → Box → List Ring) (bbox : Option Box) (level : Nat)
        (patch : Bool) (shapes : List (Option Shape)),
      (∃ s : Shape, some s ∈ shapes ∧ 1 < s.nParts ∧ s.partStart0 ≠ 0) →
      load_shp clip bbox level patch shapes = .error .dataCorruption) ∧
    (∀ (clip : Ring → Box → List Ring)
        (files : String → Option (List (Option Shape))) (dirname : String)
        (rname : String) (res : Resolution) (bbox : Option Box)
        (shapes : List (Option Shape)),
      parse_resolution_string rname = .ok res →
      files (shpPath dirname res 1) = some shapes →
      (∃ s : Shape, some s ∈ shapes ∧ 1 < s.nParts ∧ s.partStart0 ≠ 0) →
      build clip files dirname (some rname) none bbox =
        .error .dataCorruption) := by
  have hload : ∀ (clip : Ring → Box → List Ring) (bbox : Option Box)
      (level : Nat) (patch : Bool) (shapes : List (Option Shape)),
      (∃ s : Shape, some s ∈ shapes ∧ 1 < s.nParts ∧ s.partStart0 ≠ 0) →
      load_shp clip bbox level patch shapes = .error .dataCorruption := by
    intro clip bbox level patch shapes ⟨s, hmem, h1, h2⟩
    exact loadShapes_corrupt clip bbox level patch shapes 0 []
      ⟨s, hmem, lt_trans one_pos h1, h2⟩
  refine ⟨hload, ?_⟩
  intro clip files dirname rname res bbox shapes hparse hfile hbad
  rw [build]
  simp only [Option.getD_some, hparse]
  rw [buildLevels]
  simp only [levelSkipped]
  rw [if_neg (by simp), if_neg (by simp)]
  simp only [hfile, hload clip bbox 1 (patchFlag res 1) shapes hbad]

/-- Witness for C5: a two-part shape starting at offset 7 corrupts the
level-1 file of an otherwise well-formed crude build. -/
theorem load_corrupt_aborts_c5_witness :
    build (fun r _ => [r]) (fun _ => some [some ⟨5, 2, 7, [(0, 0)]⟩]) "data"
        (some "crude") none none = .error .dataCorruption :=
  load_corrupt_aborts_c5.2 (fun r _ => [r])
    (fun _ => some [some ⟨5, 2, 7, [(0, 0)]⟩]) "data" "crude"
    Resolution.kCrude none [some ⟨5, 2, 7, [(0, 0)]⟩] rfl rfl
    ⟨⟨5, 2, 7, [(0, 0)]⟩, by simp, by norm_num, by norm_num⟩

/-- C6: an unrecognized resolution name fails with InvalidArgument; the
construction then returns that error whatever the filesystem holds — no
file is consulted; an absent resolution argument means "intermediate". -/
theorem resolution_invalid_c6 :
    (∀ r : String,
      r ∉ (["crude", "low", "intermediate", "high", "full"] : List String) →
      parse_resolution_string r = .error .invalidArgument) ∧
    (∀ (clip : Ring → Box → List Ring)
        (files : String → Option (List (Option Shape))) (dirname : String)
        (levels : Option (List Int)) (bbox : Option Box) (r : String),
      r ∉ (["crude", "low", "intermediate", "high", "full"] : List String) →
      build clip files dirname (some r) levels bbox =
        .error .invalidArgument) ∧
    (∀ (clip : Ring → Box → List Ring)
        (files : String → Option (List (Option Shape))) (dirname : String)
        (levels : Option (List Int)) (bbox : Option Box),
      build clip files dirname none levels bbox =
        build clip files dirname (some "intermediate") levels bbox) := by
  have hparse : ∀ r : String,
      r ∉ (["crude", "low", "intermediate", "high", "full"] : List String) →
      parse_resolution_string r = .error .invalidArgument := by
    intro r h
    simp only [List.mem_cons, List.mem_singleton, not_or] at h
    obtain ⟨h1, h2, h3, h4, h5, -⟩ := h
    rw [parse_resolution_string, if_neg h1, if_neg h2, if_neg h3, if_neg h4,
      if_neg h5]
  refine ⟨hparse, ?_, ?_⟩
  · intro clip files dirname levels bbox r h
    rw [build]
    simp only [Option.getD_some, hparse r h]
  · intro clip files dirname levels bbox
    rfl

/-- Witness for C6 at the unknown resolution name "fast". -/
theorem resolution_invalid_c6_witness :
    parse_resolution_string "fast" = .error .invalidArgument ∧
      build (fun r _ => [r]) (fun _ => none) "data" (some "fast") none none =
        .error .invalidArgument :=
  ⟨resolution_invalid_c6.1 "fast" (by simp),
    resolution_invalid_c6.2.1 (fun r _ => [r]) (fun _ => none) "data" none
      none "fast" (by simp)⟩

lemma ringVertices_false (verts : List Pt) :
    ringVertices false verts = verts := by
  unfold ringVertices
  rw [show (fun jv : Nat × Pt =>
      if false && (decide (jv.1 < 2) || decide (jv.1 = verts.length - 1))
      then none else some jv.2) = some ∘ Prod.snd by
    funext jv; simp]
  rw [List.filterMap_eq_map]
  exact List.enum_map_snd verts

lemma enumFrom_skip_last {α : Type} (n : Nat) :
    ∀ (l : List α) (i : Nat), 2 ≤ i → i + l.length = n →
      (l.enumFrom i).filterMap (fun jv =>
        if decide (jv.1 < 2) || decide (jv.1 = n - 1) then none
        else some jv.2) = l.dropLast
  | [], _, _, _ => rfl
  | a :: l, i, hi, hn => by
      rw [List.enumFrom_cons, List.filterMap_cons]
      cases l with
      | nil =>
          have h1 : i = n - 1 := by simp at hn; omega
          rw [if_pos (by simp [h1])]
          rfl
      | cons b l' =>
          have h2 : ¬(i < 2) := by omega
          have h3 : ¬(i = n - 1) := by simp at hn; omega
          rw [if_neg (by simp [h2, h3])]
          rw [enumFrom_skip_last n (b :: l') (i + 1) (by omega)
            (by simp at hn ⊢; omega)]
          rfl

lemma ringVertices_true (verts : List Pt) :
    ringVertices true verts = (verts.drop 2).dropLast := by
  unfold ringVertices
  simp only [Bool.true_and]
  match verts with
  | [] => rfl
  | [a] => rfl
  | a :: b :: rest =>
      rw [show (a :: b :: rest).enum =
        (0, a) :: (1, b) :: rest.enumFrom 2 from rfl]
      rw [List.filterMap_cons, List.filterMap_cons]
      rw [if_pos (by simp), if_pos (by simp)]
      rw [enumFrom_skip_last ((a :: b :: rest).length) rest 2 (by omega)
        (by simp only [List.length_cons]; omega)]
      rfl

lemma assembleRing_true (verts : List Pt) :
    assembleRing true verts =
      (verts.drop 2).dropLast ++ [((180 : ℚ), (-90 : ℚ)), ((0 : ℚ), (-90 : ℚ))] := by
  rw [assembleRing, if_pos rfl, ringVertices_true]

lemma assembleRing_false (verts : List Pt) :
    assembleRing false verts = verts := by
  rw [assembleRing, if_neg (by simp), ringVertices_false]

/-- C7: with the patch active the first shape's ring is its vertex list
with the first two and the last vertex dropped and the closing vertices
(180, -90) and (0, -90) appended in that order; an unpatched shape, or any
shape after the first, keeps its vertex list unchanged; and the load is
invoked with the patch exactly for full resolution at level 5. -/
theorem full_level5_patch_c7 :
    (∀ verts : List Pt, assembleRing true verts =
      (verts.drop 2).dropLast ++
        [((180 : ℚ), (-90 : ℚ)), ((0 : ℚ), (-90 : ℚ))]) ∧
    (∀ verts : List Pt, assembleRing false verts = verts) ∧
    (∀ (patch : Bool) (ix : Nat), ix ≠ 0 →
      ∀ verts : List Pt,
        assembleRing (patch && decide (ix = 0)) verts = verts) ∧
    (∀ (res : Resolution) (level : Nat),
      patchFlag res level = true ↔ res = Resolution.kFull ∧ level = 5) ∧
    (∀ (clip : Ring → Box → List Ring) (level : Nat) (s : Shape),
      s.partStart0 = 0 → s.nSHPType = SHPT_POLYGON → s.vertices ≠ [] →
      load_shp clip none level true [some s] =
        .ok [⟨(s.vertices.drop 2).dropLast ++
            [((180 : ℚ), (-90 : ℚ)), ((0 : ℚ), (-90 : ℚ))],
          envelopeOf ((s.vertices.drop 2).dropLast ++
            [((180 : ℚ), (-90 : ℚ)), ((0 : ℚ), (-90 : ℚ))]),
          level⟩]) := by
  refine ⟨assembleRing_true, assembleRing_false, ?_, ?_, ?_⟩
  · intro patch ix hix verts
    rw [show (patch && decide (ix = 0)) = false by simp [hix]]
    exact assembleRing_false verts
  · intro res level
    simp [patchFlag]
  · intro clip level s h0 htype hv
    rw [load_shp, loadShapes, if_neg (by simp [h0])]
    simp [loadShapes, processShape, htype, hv, assembleRing_true]

/-- Witness for C7: a four-vertex first shape at any level loaded with the
patch keeps only its third vertex and gains the two closing vertices. -/
theorem full_level5_patch_c7_witness :
    load_shp (fun r _ => [r]) none 5 true
        [some ⟨5, 1, 0, [(1, 1), (2, 2), (3, 3), (4, 4)]⟩] =
      .ok [⟨[((3 : ℚ), (3 : ℚ)), (180, -90), (0, -90)],
        envelopeOf [((3 : ℚ), (3 : ℚ)), (180, -90), (0, -90)], 5⟩] := by
  have h := full_level5_patch_c7.2.2.2.2 (fun r _ => [r]) 5
    ⟨5, 1, 0, [(1, 1), (2, 2), (3, 3), (4, 4)]⟩ rfl rfl (by simp)
  simpa using h

lemma dispatchCaptured_all_none (f : Nat → Option Err)
    (ranges : List (Nat × Nat))
    (h : ∀ r ∈ ranges, rangeFirstError f r.1 r.2 = none) :
    dispatchCaptured f ranges = none := by
  unfold dispatchCaptured
  induction ranges with
  | nil => rfl
  | cons r rest ih =>
      rw [List.foldl_cons, h r (List.mem_cons_self r rest)]
      exact ih fun r' hr' => h r' (List.mem_cons_of_mem r hr')

lemma foldl_keep_of_none (f : Nat → Option Err) (acc : Option Err) :
    ∀ l : List (Nat × Nat), (∀ r ∈ l, rangeFirstError f r.1 r.2 = none) →
      l.foldl (fun acc r =>
        match rangeFirstError f r.1 r.2 with
        | some e => some e
        | none => acc) acc = acc := by
  intro l
  induction l generalizing acc with
  | nil => intro _; rfl
  | cons r rest ih =>
      intro h
      rw [List.foldl_cons, h r (List.mem_cons_self r rest)]
      exact ih acc fun r' hr' => h r' (List.mem_cons_of_mem r hr')

lemma dispatchCaptured_last (f : Nat → Option Err) (e : Err)
    (pre post : List (Nat × Nat)) (r : Nat × Nat)
    (hr : rangeFirstError f r.1 r.2 = some e)
    (hpost : ∀ r' ∈ post, rangeFirstError f r'.1 r'.2 = none) :
    dispatchCaptured f (pre ++ r :: post) = some e := by
  unfold dispatchCaptured
  rw [List.foldl_append, List.foldl_cons, hr]
  exact foldl_keep_of_none f (some e) post hpost

lemma rangeFirstError_none_iff (f : Nat → Option Err) (start stop : Nat) :
    rangeFirstError f start stop = none ↔
      ∀ k, start ≤ k → k < stop → f k = none := by
  unfold rangeFirstError
  rw [List.findSome?_eq_none_iff]
  constructor
  · intro h k h1 h2
    exact h k (List.mem_range'_1.mpr ⟨h1, by omega⟩)
  · intro h k hk
    obtain ⟨h1, h2⟩ := List.mem_range'_1.mp hk
    exact h k h1 (by omega)

/-- C8 (spec-modelled dispatcher): in a batched query, if no per-point
query of any range fails then no error is raised and outputs are
delivered; if some ranges fail, the single error propagated to the caller
is the last one observed — the first per-point error of the last failing
range. -/
theorem batch_error_propagation_c8 {α : Type} (g : Nat → Except Err α)
    (ranges : List (Nat × Nat)) :
    ((∀ r ∈ ranges, ∀ k, r.1 ≤ k → k < r.2 → pointError g k = none) →
      ∃ out, batchQuery g ranges = .ok out) ∧
    (∀ (pre post : List (Nat × Nat)) (r : Nat × Nat) (e : Err),
      ranges = pre ++ r :: post →
      rangeFirstError (pointError g) r.1 r.2 = some e →
      (∀ r' ∈ post, rangeFirstError (pointError g) r'.1 r'.2 = none) →
      batchQuery g ranges = .error e) := by
  constructor
  · intro h
    refine ⟨(ranges.map (fun r =>
      (List.range' r.1 (r.2 - r.1)).filterMap fun k =>
        (g k).toOption)).flatten, ?_⟩
    unfold batchQuery
    rw [dispatchCaptured_all_none (pointError g) ranges fun r hr =>
      (rangeFirstError_none_iff (pointError g) r.1 r.2).mpr (h r hr)]
  · intro pre post r e hsplit hr hpost
    unfold batchQuery
    rw [hsplit, dispatchCaptured_last (pointError g) e pre post r hr hpost]

/-- Witness for C8: a per-point query failing at index 3 with the ranges
[0,2) and [2,4) surfaces exactly that error. -/
theorem batch_error_propagation_c8_witness :
    batchQuery
        (fun i => if i = 3 then (.error .emptyIndex : Except Err Nat)
          else .ok i)
        [(0, 2), (2, 4)] = .error .emptyIndex :=
  (batch_error_propagation_c8
      (fun i => if i = 3 then (.error .emptyIndex : Except Err Nat)
        else .ok i) [(0, 2), (2, 4)]).2
    [(0, 2)] [] (2, 4) .emptyIndex rfl
    (by norm_num [rangeFirstError, pointError, List.range'])
    (by simp)

lemma A_pos : (0 : ℝ) < A := by norm_num [A]

lemma B_pos : (0 : ℝ) < B := by norm_num [B]

lemma B_lt_A : B < A := by norm_num [A, B]

lemma ecc_arg_nonneg : (0 : ℝ) ≤ (A * A - B * B) / (A * A) := by
  have h1 := B_pos
  have h2 := B_lt_A
  have h3 := A_pos
  apply div_nonneg _ (by positivity)
  nlinarith

lemma E_sq : E * E = (A * A - B * B) / (A * A) :=
  Real.mul_self_sqrt ecc_arg_nonneg

lemma SE_sq : SE * SE = (A * A - B * B) / (B * B) :=
  Real.mul_self_sqrt (by
    have h1 := B_pos
    have h2 := B_lt_A
    apply div_nonneg _ (by positivity)
    nlinarith)

lemma one_sub_E_sq : 1 - E * E = B * B / (A * A) := by
  have hA : (A : ℝ) ≠ 0 := ne_of_gt A_pos
  rw [E_sq]
  field_simp

lemma E_sq_lt_one : E * E < 1 := by
  rw [E_sq]
  rw [div_lt_one (by nlinarith [A_pos])]
  nlinarith [B_pos]

lemma atan2_scaled {k : ℝ} (hk : 0 < k) {t : ℝ}
    (ht : t ∈ Set.Ioc (-Real.pi) Real.pi) :
    atan2 (k * Real.sin t) (k * Real.cos t) = t := by
  unfold atan2
  have h : ((k * Real.cos t : ℝ) : ℂ) + (k * Real.sin t : ℝ) * Complex.I =
      (k : ℝ) * (Real.cos t + Real.sin t * Complex.I) := by
    push_cast
    ring
  rw [h, Complex.arg_real_mul _ hk]
  exact_mod_cast Complex.arg_cos_add_sin_mul_I ht

lemma atan2_zero_of_nonneg {a : ℝ} (ha : 0 ≤ a) : atan2 0 a = 0 := by
  unfold atan2
  simp only [Complex.ofReal_zero, zero_mul, add_zero]
  exact Complex.arg_ofReal_of_nonneg ha

/-- C3 (amended): geodetic_2_cartesian implements x=χ·cos(lat)·cos(lon),
y=χ·cos(lat)·sin(lon) and z=χ(1−e²)·sin(lat) with χ = a/√(1−e²sin²lat) —
the claimed formula with the altitude treated as 0: the altitude component
of the input point is ignored, not added into z. -/
theorem geodetic_formula_c3 (point : GeodeticRadian) :
    geodetic_2_cartesian point =
      geodeticToCartesianSpec ⟨point.lon, point.lat, 0⟩ := by
  have hq : (1 : ℝ) - E ^ 2 * Real.sin point.lat ^ 2 =
      1 - E * E * Real.sin point.lat * Real.sin point.lat := by ring
  simp only [geodetic_2_cartesian, geodeticToCartesianSpec, chiOf, hq]
  rw [Cartesian.mk.injEq]
  refine ⟨by ring, by ring, by ring⟩

/-- C3 counterexample: at (lon, lat, alt) = (0, π/2, 1) the code's result
differs from the claimed formula, whose z adds the altitude; the code's z
has no altitude term. -/
theorem geodetic_formula_c3_counterexample :
    geodetic_2_cartesian ⟨0, Real.pi / 2, 1⟩ ≠
      geodeticToCartesianSpec ⟨0, Real.pi / 2, 1⟩ := by
  intro h
  have hz := congrArg Cartesian.z h
  simp only [geodetic_2_cartesian, geodeticToCartesianSpec, chiOf,
    Real.sin_pi_div_two] at hz
  rw [show (1 : ℝ) - E ^ 2 * 1 ^ 2 = 1 - E * E * 1 * 1 by ring] at hz
  ring_nf at hz
  nlinarith [hz]

lemma cart_at_360 :
    geodetic_2_cartesian (geodetic_2_radian ⟨360, 0, 1000⟩) = ⟨A, 0, 0⟩ := by
  have h360 : radians 360 = 2 * Real.pi := by rw [radians]; ring
  have h0 : radians 0 = 0 := by rw [radians]; ring
  simp only [geodetic_2_radian, h360, h0]
  simp only [geodetic_2_cartesian, chiOf, Real.sin_zero, Real.cos_zero,
    Real.sin_two_pi, Real.cos_two_pi, mul_zero, sub_zero, Real.sqrt_one]
  rw [Cartesian.mk.injEq]
  norm_num

lemma geodetic_at_A00 : cartesian_2_geodetic ⟨A, 0, 0⟩ = ⟨0, 0, 0⟩ := by
  rw [cartesian_2_geodetic]
  rw [if_neg (by
    rintro ⟨hx, -⟩
    exact absurd hx (ne_of_gt A_pos))]
  have hP : Real.sqrt ((⟨A, 0, 0⟩ : Cartesian).x * (⟨A, 0, 0⟩ : Cartesian).x +
      (⟨A, 0, 0⟩ : Cartesian).y * (⟨A, 0, 0⟩ : Cartesian).y) = A := by
    show Real.sqrt (A * A + 0 * 0) = A
    rw [mul_zero, add_zero]
    exact Real.sqrt_mul_self A_pos.le
  have htheta : thetaOf ⟨A, 0, 0⟩ = 0 := by
    rw [thetaOf, hP]
    show atan2 (0 * A) (A * B) = 0
    rw [zero_mul]
    exact atan2_zero_of_nonneg (by nlinarith [A_pos, B_pos])
  rw [GeodeticRadian.mk.injEq]
  refine ⟨atan2_zero_of_nonneg A_pos.le, ?_, rfl⟩
  rw [htheta, hP]
  show atan2 (0 + SE * SE * B * Real.sin 0 ^ 3)
      (A - E * E * A * Real.cos 0 ^ 3) = 0
  rw [Real.sin_zero, Real.cos_zero]
  rw [show (0 : ℝ) + SE * SE * B * 0 ^ 3 = 0 by ring]
  exact atan2_zero_of_nonneg (by nlinarith [E_sq_lt_one, A_pos])

lemma roundtrip_at_360 : roundtrip ⟨360, 0, 1000⟩ = ⟨0, 0, 0⟩ := by
  rw [roundtrip, cart_at_360, geodetic_at_A00]
  simp only [geodetic_2_degree, degrees]
  rw [GeodeticDegree.mk.injEq]
  norm_num

/-- C4 counterexample: at the geodetic point (lon 360°, lat 0°, alt
1000 m), which satisfies the claim's |lat| < 90° premise, the round trip
returns (0°, 0°, 0 m): the longitude is off by 360° and the altitude by
1000 m, far beyond the claimed 1e-6° / 1e-3 m tolerances. -/
theorem roundtrip_c4_counterexample :
    roundtrip ⟨360, 0, 1000⟩ = ⟨0, 0, 0⟩ ∧
      ¬(|(roundtrip ⟨360, 0, 1000⟩).lon - 360| ≤ 1e-6 ∧
        |(roundtrip ⟨360, 0, 1000⟩).lat - 0| ≤ 1e-6 ∧
        |(roundtrip ⟨360, 0, 1000⟩).alt - 1000| ≤ 1e-3) := by
  refine ⟨roundtrip_at_360, ?_⟩
  rw [roundtrip_at_360]
  rintro ⟨h1, -, -⟩
  simp only at h1
  rw [abs_le] at h1
  norm_num at h1

lemma Dval_arg_pos {s c : ℝ} (hc : 0 < c) :
    0 < A * A * (c * c) + B * B * (s * s) := by
  have h1 : 0 < A * A * (c * c) :=
    mul_pos (mul_pos A_pos A_pos) (mul_pos hc hc)
  have h2 : 0 ≤ B * B * (s * s) :=
    mul_nonneg (mul_nonneg B_pos.le B_pos.le) (mul_self_nonneg s)
  linarith

lemma Dval_pos {s c : ℝ} (hc : 0 < c) : 0 < Dval s c :=
  Real.sqrt_pos.mpr (Dval_arg_pos hc)

lemma Dval_sq {s c : ℝ} (hc : 0 < c) :
    Dval s c * Dval s c = A * A * (c * c) + B * B * (s * s) :=
  Real.mul_self_sqrt (Dval_arg_pos hc).le

lemma chi_eq (phi : ℝ) (hc : 0 < Real.cos phi) :
    chiOf phi = Dval (Real.sin phi) (Real.cos phi) / A := by
  have hsc := Real.sin_sq_add_cos_sq phi
  have hA := A_pos
  have hE2A : E * E * (A * A) = A * A - B * B := by
    rw [E_sq]
    field_simp
  have hkey : 1 - E * E * Real.sin phi * Real.sin phi =
      Dval (Real.sin phi) (Real.cos phi) / A *
        (Dval (Real.sin phi) (Real.cos phi) / A) := by
    rw [show Dval (Real.sin phi) (Real.cos phi) / A *
        (Dval (Real.sin phi) (Real.cos phi) / A) =
        Dval (Real.sin phi) (Real.cos phi) *
          Dval (Real.sin phi) (Real.cos phi) / (A * A) by ring]
    rw [Dval_sq hc]
    rw [eq_div_iff (by nlinarith)]
    linear_combination (-(Real.sin phi * Real.sin phi)) * hE2A +
      (-(A * A)) * hsc
  rw [chiOf, hkey,
    Real.sqrt_mul_self (div_nonneg (Dval_pos hc).le A_pos.le)]

lemma cart_eq (lam phi : ℝ) (hc : 0 < Real.cos phi) :
    geodetic_2_cartesian ⟨lam, phi, 0⟩ =
      ⟨A * A / Dval (Real.sin phi) (Real.cos phi) * Real.cos phi *
          Real.cos lam,
        A * A / Dval (Real.sin phi) (Real.cos phi) * Real.cos phi *
          Real.sin lam,
        B * B * Real.sin phi / Dval (Real.sin phi) (Real.cos phi)⟩ := by
  have hD := Dval_pos (s := Real.sin phi) hc
  have hA := A_pos
  rw [geodetic_2_cartesian, chi_eq phi hc, Cartesian.mk.injEq]
  refine ⟨by field_simp, by field_simp, ?_⟩
  rw [one_sub_E_sq]
  field_simp
  ring

lemma re_mk (a b : ℝ) : ((a : ℂ) + b * Complex.I).re = a := by simp

lemma im_mk (a b : ℝ) : ((a : ℂ) + b * Complex.I).im = b := by simp

lemma P_eval (lam phi : ℝ) (hc : 0 < Real.cos phi) :
    Real.sqrt
      (A * A / Dval (Real.sin phi) (Real.cos phi) * Real.cos phi *
          Real.cos lam *
        (A * A / Dval (Real.sin phi) (Real.cos phi) * Real.cos phi *
          Real.cos lam) +
        A * A / Dval (Real.sin phi) (Real.cos phi) * Real.cos phi *
          Real.sin lam *
        (A * A / Dval (Real.sin phi) (Real.cos phi) * Real.cos phi *
          Real.sin lam)) =
      A * A / Dval (Real.sin phi) (Real.cos phi) * Real.cos phi := by
  have hD := Dval_pos (s := Real.sin phi) hc
  have hKpos : 0 < A * A / Dval (Real.sin phi) (Real.cos phi) *
      Real.cos phi :=
    mul_pos (div_pos (mul_pos A_pos A_pos) hD) hc
  rw [show A * A / Dval (Real.sin phi) (Real.cos phi) * Real.cos phi *
        Real.cos lam *
      (A * A / Dval (Real.sin phi) (Real.cos phi) * Real.cos phi *
        Real.cos lam) +
      A * A / Dval (Real.sin phi) (Real.cos phi) * Real.cos phi *
        Real.sin lam *
      (A * A / Dval (Real.sin phi) (Real.cos phi) * Real.cos phi *
        Real.sin lam) =
      (A * A / Dval (Real.sin phi) (Real.cos phi) * Real.cos phi) *
        (A * A / Dval (Real.sin phi) (Real.cos phi) * Real.cos phi) *
        (Real.sin lam ^ 2 + Real.cos lam ^ 2) by ring]
  rw [Real.sin_sq_add_cos_sq, mul_one, Real.sqrt_mul_self hKpos.le]

lemma theta_eval (lam phi : ℝ) (hc : 0 < Real.cos phi) :
    Real.sin (thetaOf
        ⟨A * A / Dval (Real.sin phi) (Real.cos phi) * Real.cos phi *
            Real.cos lam,
          A * A / Dval (Real.sin phi) (Real.cos phi) * Real.cos phi *
            Real.sin lam,
          B * B * Real.sin phi / Dval (Real.sin phi) (Real.cos phi)⟩) =
      B * Real.sin phi / Dval (Real.sin phi) (Real.cos phi) ∧
    Real.cos (thetaOf
        ⟨A * A / Dval (Real.sin phi) (Real.cos phi) * Real.cos phi *
            Real.cos lam,
          A * A / Dval (Real.sin phi) (Real.cos phi) * Real.cos phi *
            Real.sin lam,
          B * B * Real.sin phi / Dval (Real.sin phi) (Real.cos phi)⟩) =
      A * Real.cos phi / Dval (Real.sin phi) (Real.cos phi) := by
  have hD := Dval_pos (s := Real.sin phi) hc
  have hD2 := Dval_sq (s := Real.sin phi) hc
  have hA := A_pos
  have hB := B_pos
  have hKpos : 0 < A * A / Dval (Real.sin phi) (Real.cos phi) *
      Real.cos phi :=
    mul_pos (div_pos (mul_pos A_pos A_pos) hD) hc
  have hP := P_eval lam phi hc
  have htheta : thetaOf
      ⟨A * A / Dval (Real.sin phi) (Real.cos phi) * Real.cos phi *
          Real.cos lam,
        A * A / Dval (Real.sin phi) (Real.cos phi) * Real.cos phi *
          Real.sin lam,
        B * B * Real.sin phi / Dval (Real.sin phi) (Real.cos phi)⟩ =
      Complex.arg
        (↑(A * A / Dval (Real.sin phi) (Real.cos phi) * Real.cos phi * B) +
          ↑(B * B * Real.sin phi / Dval (Real.sin phi) (Real.cos phi) * A) *
            Complex.I) := by
    rw [thetaOf]
    show atan2 _ _ = _
    rw [hP, atan2]
  have hsum : A * A / Dval (Real.sin phi) (Real.cos phi) * Real.cos phi * B *
      (A * A / Dval (Real.sin phi) (Real.cos phi) * Real.cos phi * B) +
      B * B * Real.sin phi / Dval (Real.sin phi) (Real.cos phi) * A *
      (B * B * Real.sin phi / Dval (Real.sin phi) (Real.cos phi) * A) =
      (A * B) ^ 2 := by
    have hDne : Dval (Real.sin phi) (Real.cos phi) ≠ 0 := ne_of_gt hD
    field_simp
    linear_combination (-(A * A * B * B)) * hD2
  have habs : Complex.abs
      (↑(A * A / Dval (Real.sin phi) (Real.cos phi) * Real.cos phi * B) +
        ↑(B * B * Real.sin phi / Dval (Real.sin phi) (Real.cos phi) * A) *
          Complex.I) = A * B := by
    rw [Complex.abs_apply, Complex.normSq_apply, re_mk, im_mk, hsum]
    exact Real.sqrt_sq (mul_pos A_pos B_pos).le
  have hwne : (↑(A * A / Dval (Real.sin phi) (Real.cos phi) * Real.cos phi *
        B) +
      ↑(B * B * Real.sin phi / Dval (Real.sin phi) (Real.cos phi) * A) *
        Complex.I) ≠ 0 := by
    intro h
    rw [h, map_zero] at habs
    nlinarith
  constructor
  · rw [htheta, Complex.sin_arg, habs, im_mk]
    field_simp
    ring
  · rw [htheta, Complex.cos_arg hwne, habs, re_mk]
    field_simp
    ring

lemma bowring_num (phi : ℝ) (hc : 0 < Real.cos phi) :
    B * B * Real.sin phi / Dval (Real.sin phi) (Real.cos phi) +
      SE * SE * B *
        (B * Real.sin phi / Dval (Real.sin phi) (Real.cos phi)) ^ 3 =
      A * A * B * B /
        (Dval (Real.sin phi) (Real.cos phi) *
          Dval (Real.sin phi) (Real.cos phi) *
          Dval (Real.sin phi) (Real.cos phi)) * Real.sin phi := by
  have hD := Dval_pos (s := Real.sin phi) hc
  have hD2 := Dval_sq (s := Real.sin phi) hc
  have hDne : Dval (Real.sin phi) (Real.cos phi) ≠ 0 := ne_of_gt hD
  have hBne : B ≠ 0 := ne_of_gt B_pos
  have hsc := Real.sin_sq_add_cos_sq phi
  have hSE2B : SE * SE * (B * B) = A * A - B * B := by
    rw [SE_sq]
    field_simp
  field_simp
  linear_combination
    (B * B * Real.sin phi * Dval (Real.sin phi) (Real.cos phi) ^ 4) * hD2 +
    (B * B * Real.sin phi ^ 3 * Dval (Real.sin phi) (Real.cos phi) ^ 4) *
      hSE2B +
    (A * A * B * B * Real.sin phi * Dval (Real.sin phi) (Real.cos phi) ^ 4) *
      hsc

lemma bowring_den (phi : ℝ) (hc : 0 < Real.cos phi) :
    A * A / Dval (Real.sin phi) (Real.cos phi) * Real.cos phi -
      E * E * A *
        (A * Real.cos phi / Dval (Real.sin phi) (Real.cos phi)) ^ 3 =
      A * A * B * B /
        (Dval (Real.sin phi) (Real.cos phi) *
          Dval (Real.sin phi) (Real.cos phi) *
          Dval (Real.sin phi) (Real.cos phi)) * Real.cos phi := by
  have hD := Dval_pos (s := Real.sin phi) hc
  have hD2 := Dval_sq (s := Real.sin phi) hc
  have hDne : Dval (Real.sin phi) (Real.cos phi) ≠ 0 := ne_of_gt hD
  have hAne : A ≠ 0 := ne_of_gt A_pos
  have hsc := Real.sin_sq_add_cos_sq phi
  have hE2A : E * E * (A * A) = A * A - B * B := by
    rw [E_sq]
    field_simp
  field_simp
  linear_combination
    (A * A * Real.cos phi * Dval (Real.sin phi) (Real.cos phi) ^ 4) * hD2 +
    (-(A * A * Real.cos phi ^ 3 * Dval (Real.sin phi) (Real.cos phi) ^ 4)) *
      hE2A +
    (A * A * B * B * Real.cos phi * Dval (Real.sin phi) (Real.cos phi) ^ 4) *
      hsc

lemma cartesian_2_geodetic_not_pole (p : Cartesian)
    (h : ¬(p.x = 0 ∧ p.y = 0)) :
    cartesian_2_geodetic p =
      ⟨atan2 p.y p.x,
        atan2 (p.z + SE * SE * B * Real.sin (thetaOf p) ^ 3)
          (Real.sqrt (p.x * p.x + p.y * p.y) -
            E * E * A * Real.cos (thetaOf p) ^ 3),
        0⟩ := by
  rw [cartesian_2_geodetic, if_neg h]

lemma bowring_exact {lam phi : ℝ} (hlam1 : -Real.pi < lam)
    (hlam2 : lam ≤ Real.pi) (hphi : |phi| < Real.pi / 2) :
    cartesian_2_geodetic (geodetic_2_cartesian ⟨lam, phi, 0⟩) =
      ⟨lam, phi, 0⟩ := by
  obtain ⟨hphi1, hphi2⟩ := abs_lt.mp hphi
  have hc : 0 < Real.cos phi :=
    Real.cos_pos_of_mem_Ioo ⟨by linarith, hphi2⟩
  have hD := Dval_pos (s := Real.sin phi) hc
  have hA := A_pos
  have hB := B_pos
  have hKpos : 0 < A * A / Dval (Real.sin phi) (Real.cos phi) *
      Real.cos phi :=
    mul_pos (div_pos (mul_pos hA hA) hD) hc
  rw [cart_eq lam phi hc]
  rw [cartesian_2_geodetic_not_pole _ (by
    rintro ⟨hx, hy⟩
    simp only at hx hy
    have hcl : Real.cos lam = 0 := by
      rcases mul_eq_zero.mp hx with h | h
      · exact absurd h (ne_of_gt hKpos)
      · exact h
    have hsl : Real.sin lam = 0 := by
      rcases mul_eq_zero.mp hy with h | h
      · exact absurd h (ne_of_gt hKpos)
      · exact h
    have hone := Real.sin_sq_add_cos_sq lam
    rw [hcl, hsl] at hone
    norm_num at hone)]
  rw [GeodeticRadian.mk.injEq]
  refine ⟨?_, ?_, rfl⟩
  · show atan2
        (A * A / Dval (Real.sin phi) (Real.cos phi) * Real.cos phi *
          Real.sin lam)
        (A * A / Dval (Real.sin phi) (Real.cos phi) * Real.cos phi *
          Real.cos lam) = lam
    exact atan2_scaled hKpos ⟨hlam1, hlam2⟩
  · show atan2
        (B * B * Real.sin phi / Dval (Real.sin phi) (Real.cos phi) +
          SE * SE * B * Real.sin (thetaOf _) ^ 3)
        (Real.sqrt _ - E * E * A * Real.cos (thetaOf _) ^ 3) = phi
    rw [(theta_eval lam phi hc).1, (theta_eval lam phi hc).2,
      P_eval lam phi hc, bowring_num phi hc, bowring_den phi hc]
    have hkpos : 0 < A * A * B * B /
        (Dval (Real.sin phi) (Real.cos phi) *
          Dval (Real.sin phi) (Real.cos phi) *
          Dval (Real.sin phi) (Real.cos phi)) :=
      div_pos (mul_pos (mul_pos (mul_pos hA hA) hB) hB)
        (mul_pos (mul_pos hD hD) hD)
    have hpi := Real.pi_pos
    exact atan2_scaled hkpos ⟨by linarith, by linarith⟩

lemma degrees_radians (x : ℝ) : degrees (radians x) = x := by
  rw [degrees, radians]
  have hpi := Real.pi_ne_zero
  field_simp

/-- C4 (amended): for every geodetic point with longitude in (-180°, 180°],
|lat| < 90° and altitude 0, the round trip returns the point exactly — in
particular within the claimed 1e-6° / 1e-3 m — and for inputs with
x = 0 and y = 0 (the exact poles) cartesian_2_geodetic yields longitude 0
and latitude ±90° with the sign of z (+90° when z = 0, the sign of a
positive zero).  The restrictions to the principal longitude range and to
altitude 0 are forced: the transform to ECEF ignores the altitude and the
inverse returns the principal longitude, as the counterexample at
(360°, 0°, 1000 m) shows. -/
theorem roundtrip_c4 :
    (∀ lon lat : ℝ, -180 < lon → lon ≤ 180 → |lat| < 90 →
      roundtrip ⟨lon, lat, 0⟩ = ⟨lon, lat, 0⟩) ∧
    (∀ c : Cartesian, c.x = 0 → c.y = 0 →
      geodetic_2_degree (cartesian_2_geodetic c) =
        ⟨0, if c.z < 0 then -90 else 90, 0⟩) := by
  constructor
  · intro lon lat h1 h2 h3
    have hpi := Real.pi_pos
    have hl1 : -Real.pi < radians lon := by rw [radians]; nlinarith
    have hl2 : radians lon ≤ Real.pi := by rw [radians]; nlinarith
    have hl3 : |radians lat| < Real.pi / 2 := by
      rw [radians, abs_div, abs_mul, abs_of_pos hpi,
        abs_of_pos (by norm_num : (0 : ℝ) < 180)]
      rw [div_lt_iff₀ (by norm_num : (0 : ℝ) < 180)]
      nlinarith [abs_nonneg lat]
    rw [roundtrip,
      show geodetic_2_radian ⟨lon, lat, 0⟩ =
        ⟨radians lon, radians lat, 0⟩ from rfl,
      bowring_exact hl1 hl2 hl3, geodetic_2_degree,
      GeodeticDegree.mk.injEq]
    exact ⟨degrees_radians lon, degrees_radians lat, rfl⟩
  · intro c hx hy
    have hpi := Real.pi_pos
    have hpine := Real.pi_ne_zero
    rw [cartesian_2_geodetic, if_pos ⟨hx, hy⟩, geodetic_2_degree,
      GeodeticDegree.mk.injEq]
    refine ⟨by simp [degrees], ?_, rfl⟩
    rw [copysign, abs_of_pos (by positivity : (0 : ℝ) < Real.pi / 2)]
    by_cases hz : c.z < 0
    · rw [if_pos hz, if_pos hz, degrees]
      field_simp
      ring
    · rw [if_neg hz, if_neg hz, degrees]
      field_simp
      ring

/-- Witness for C4 at (lon, lat, alt) = (0, 0, 0). -/
theorem roundtrip_c4_witness :
    ((-180 : ℝ) < 0 ∧ (0 : ℝ) ≤ 180 ∧ |(0 : ℝ)| < 90) ∧
      roundtrip ⟨0, 0, 0⟩ = ⟨0, 0, 0⟩ :=
  ⟨by norm_num,
    roundtrip_c4.1 0 0 (by norm_num) (by norm_num) (by norm_num)⟩

end Gshhg
